import Mathlib

set_option linter.unusedVariables false

namespace Spotitube

/-- Per-track sync intent flags, mirroring the SyncOptions record of the
track package (fields Source, Metadata, Normalization). -/
structure SyncOptions where
  source : Bool
  metadata : Bool
  normalization : Bool
  deriving DecidableEq, Repr

/-- Shallow model of track.Track: the attributes the synchronization engine
consults. Filename and FilenameTemporary are the canonical and temporary
filenames derived by the track package from title and artist; Local reports
whether the canonical file is already present on disk; URL is the resolved
provider origin URL. All are carried as fields here. -/
structure Track where
  spotifyID : List Char
  filename : List Char
  filenameTemporary : List Char
  isLocal : Bool
  url : List Char
  deriving DecidableEq, Repr

/-- Global working set of main.go: the tracks map (modelled as an ordered
association list from Track to SyncOptions) together with tracksIndex, the
set of canonical temporary filenames already ingested. -/
structure WorkingState where
  tracks : List (Track × SyncOptions)
  tracksIndex : List (List Char)
  deriving DecidableEq, Repr

/-- Initial, empty working set. -/
def WorkingState.empty : WorkingState := ⟨[], []⟩

/-- Embedding of tracksInflateWithOption (main.go lines 683 to 691): if the
canonical temporary filename is already a key of tracksIndex the call
returns immediately (a no-op); otherwise the pair is appended to the tracks
map and the key is recorded in tracksIndex. -/
def tracksInflateWithOption (t : Track) (opts : SyncOptions) (s : WorkingState) : WorkingState :=
  if t.filenameTemporary ∈ s.tracksIndex then s
  else { tracks := s.tracks ++ [(t, opts)], tracksIndex := t.filenameTemporary :: s.tracksIndex }

/-- Modelled from the spec: track.SyncOptionsFlush, the options assigned to a
track absent locally — must fetch the source, must flush metadata. The spec
does not fix the normalization flag of this constructor, so it is left as a
parameter. -/
def SyncOptionsFlush (norm : Bool) : SyncOptions := ⟨true, true, norm⟩

/-- Modelled from the spec: track.SyncOptionsDefault, the options assigned to
a track already present locally — no forced re-fetch, metadata refresh only
if separately flagged (hence not flagged by the constructor itself). The
spec does not fix the normalization flag of this constructor, so it is left
as a parameter. -/
def SyncOptionsDefault (norm : Bool) : SyncOptions := ⟨false, false, norm⟩

/-- Embedding of tracksInflate (main.go lines 675 to 681): the options start
as the flush options and are replaced by the default options when the track
is already local; the pair is then ingested. -/
def tracksInflate (norm : Bool) (t : Track) (s : WorkingState) : WorkingState :=
  tracksInflateWithOption t (if t.isLocal then SyncOptionsDefault norm else SyncOptionsFlush norm) s

/-- Ingestion of a whole fetched source (the per-source loops of mainFetch):
fold tracksInflate over the fetched track list. -/
def ingestAll (norm : Bool) (ts : List Track) (s : WorkingState) : WorkingState :=
  ts.foldl (fun s t => tracksInflate norm t s) s

/-- Number of working-set entries whose canonical temporary filename is k. -/
def countKey (k : List Char) (s : WorkingState) : Nat :=
  s.tracks.countP (fun p => p.1.filenameTemporary == k)

/-- Invariant tying tracksIndex to the tracks map: a key is recorded exactly
when one entry carries it, and no key has more than one entry. -/
def KeyInvariant (s : WorkingState) : Prop :=
  ∀ k : List Char, (k ∈ s.tracksIndex ↔ countKey k s = 1) ∧ countKey k s ≤ 1

/-- Concrete remote track used by the witnesses: not yet present locally. -/
def trackA : Track :=
  ⟨"spotifyid1".toList, "a.mp3".toList, "a.tmp.mp3".toList, false, "urla".toList⟩

/-- Concrete local track used by the witnesses. -/
def trackB : Track :=
  ⟨"spotifyid2".toList, "b.mp3".toList, "b.tmp.mp3".toList, true, "urlb".toList⟩

/-- Concrete working state already holding trackA under its temporary key. -/
def stateA : WorkingState :=
  ⟨[(trackA, SyncOptionsFlush true)], ["a.tmp.mp3".toList]⟩

/-- Embedding of the second pass of mainFetch (main.go lines 325 to 332):
when flush-local or flush-metadata is requested, walk every entry of the
working set setting Metadata, and additionally Source when flush-local is
requested. -/
def mainFetchOverride (flushLocal flushMetadata : Bool) (s : WorkingState) : WorkingState :=
  if flushLocal || flushMetadata then
    { s with tracks := s.tracks.map (fun p =>
        (p.1, { p.2 with metadata := true,
                         source := if flushLocal then true else p.2.source })) }
  else s

/-- Model of track.TracksDump as read back by system.FetchGob: the cached
track snapshot and the wall-clock instant it was stored at, in nanoseconds
since some epoch. -/
structure TracksDump where
  tracks : List Track
  time : Nat
  deriving DecidableEq, Repr

/-- One minute in nanoseconds, mirroring Go time.Minute. -/
def timeMinute : Nat := 60 * 1000000000

/-- The fixed cache TTL of main.go line 32: cacheDuration = 30 * time.Minute. -/
def cacheDuration : Nat := 30 * timeMinute

/-- Go time.Since(t) evaluated at wall-clock instant now; the run only ever
compares instants at or after the stored time, so Nat subtraction suffices. -/
def timeSince (now t : Nat) : Nat := now - t

/-- True exactly on the error constructor of the gob-or-snapshot result. -/
def isErr : Except (List Char) TracksDump → Bool
  | .error _ => true
  | .ok _ => false

/-- Embedding of fetchDump (main.go lines 797 to 807). The outcome of
system.FetchGob is passed in explicitly since it reads the filesystem: a
read failure (missing or corrupt snapshot file) is returned as is; a
readable snapshot older than cacheDuration fails with the obsolete-cache
error; otherwise the snapshot is returned. -/
def fetchDump (readResult : Except (List Char) TracksDump) (now : Nat) :
    Except (List Char) TracksDump :=
  match readResult with
  | .error e => .error e
  | .ok dump =>
      if cacheDuration < timeSince now dump.time then
        .error ("Tracks cache is obsolete".toList)
      else .ok dump

/-- Caller-side cache decision of mainFetchLibrary, mainFetchAlbums and
mainFetchPlaylists (main.go lines 357, 402, 455): the cached snapshot is
used only when fetchDump returned no error and the snapshot age is strictly
below cacheDuration; in every other case, including both fetchDump failure
kinds, the code falls through to a live fetch. Returns true when the cache
is used. -/
def usesCache (readResult : Except (List Char) TracksDump) (now : Nat) : Bool :=
  match fetchDump readResult now with
  | .error _ => false
  | .ok dump => timeSince now dump.time < cacheDuration

/-- Concrete snapshot stored at instant 0, used by the witnesses. -/
def dumpA : TracksDump := ⟨[trackA], 0⟩

/-- Modelled from the spec: the persisted rename index of the track package
(track.TracksIndex, section 4.1 of the spec), a mapping from remote track ID
to last-known local filename with at most one filename per ID. -/
abbrev RenameIndex := List (List Char × List Char)

/-- Filename recorded for a remote ID, if any. -/
def indexLookup (idx : RenameIndex) (id : List Char) : Option (List Char) :=
  match idx with
  | [] => none
  | (i, f) :: rest => if i = id then some f else indexLookup rest id

/-- Modelled from the spec: track.TracksIndex.Match(remoteID, expected)
returns the recorded path together with whether it equals the expected
filename, and an error when no filename is recorded for the ID (a missing
entry cannot be matched, and the engine guard err == nil skips it). -/
def indexMatch (idx : RenameIndex) (id expected : List Char) :
    Except (List Char) (List Char × Bool) :=
  match indexLookup idx id with
  | none => .error ("no entry".toList)
  | some recorded => .ok (recorded, recorded == expected)

/-- Modelled from the spec: track.TracksIndex.Rename(remoteID, newFilename)
records the new filename for the ID after a successful on-disk rename. -/
def indexRename (idx : RenameIndex) (id newFilename : List Char) : RenameIndex :=
  match idx with
  | [] => [(id, newFilename)]
  | (i, f) :: rest =>
      if i = id then (i, newFilename) :: rest
      else (i, f) :: indexRename rest id newFilename

/-- Embedding of the rename-repair block of mainSearch (main.go lines 517 to
527). The outcome of os.Rename is abstracted by renameOk, the disk being
external state. When Match reports a mismatch with no error: if the disk
rename succeeds the index is updated via Rename and, only under the guard
argFlushLocal == false, the forced re-download flag Source is cleared; if
the disk rename fails only a warning is appended and both the index and the
options are left untouched. In every other Match outcome nothing happens. -/
def renameRepair (flushLocal renameOk : Bool) (idx : RenameIndex) (t : Track)
    (opts : SyncOptions) : RenameIndex × SyncOptions :=
  match indexMatch idx t.spotifyID t.filename with
  | .ok (_, false) =>
      if renameOk then
        (indexRename idx t.spotifyID t.filename,
         if flushLocal then opts else { opts with source := false })
      else (idx, opts)
  | _ => (idx, opts)

/-- Concrete track whose canonical filename Spotify has changed to B.mp3. -/
def trackC : Track :=
  ⟨"spotifyid3".toList, "B.mp3".toList, "B.tmp.mp3".toList, true, "urlc".toList⟩

/-- Concrete rename index still recording the old filename A.mp3 for
trackC. -/
def idxC : RenameIndex := [("spotifyid3".toList, "A.mp3".toList)]

/-- One search result from a provider, as far as the engine consults it
(provider.Entry): its URL and whether p.Match accepts it for the track. -/
structure Cand where
  url : List Char
  accepted : Bool
  deriving DecidableEq, Repr

/-- Outcome of p.Query(track) for one provider: a network error, or a ranked
candidate list. -/
inductive ProvRes where
  | qerr : ProvRes
  | res : List Cand → ProvRes
  deriving DecidableEq, Repr

/-- Scan of one provider's ranked candidates (main.go lines 550 to 571, with
interactive mode off): the first candidate accepted by p.Match becomes the
entry and the scan stops. -/
def pickEntry (cands : List Cand) : Option Cand :=
  cands.find? (fun c => c.accepted)

/-- Embedding of the provider loop of mainSearch (main.go lines 532 to 600)
for one track, with the input, interactive and simulate flags off. The
arguments carry the current entry (none while entry.Empty()) and the
tracksFailed list accumulated so far. A provider whose Query errors is
skipped with a warning; otherwise its candidate scan may replace the entry;
if after the scan the entry is still empty the track is appended to
tracksFailed and the loop continues with the next provider; the
already-optimal check at line 595 only ends the iteration early and touches
no state. -/
def provLoop (t : Track) : List ProvRes → Option Cand → List Track → Option Cand × List Track
  | [], entry, failed => (entry, failed)
  | ProvRes.qerr :: rest, entry, failed => provLoop t rest entry failed
  | ProvRes.res cands :: rest, entry, failed =>
      match pickEntry cands with
      | some c => provLoop t rest (some c) failed
      | none =>
          match entry with
          | none => provLoop t rest none (failed ++ [t])
          | some c => provLoop t rest (some c) failed

/-- Embedding of the per-track acquisition phase of mainSearch (main.go
lines 529 to 620), with the input, interactive and simulate flags off: the
provider loop runs only when the track is not local or a source fetch is
forced; afterwards, with a non-empty entry whose URL differs from the
current track URL, provider.For and Download run — a provider.For error only
skips the track, a failing download appends the track to tracksFailed once
more, a successful one updates the track URL. Returns the resulting track
URL and the grown tracksFailed list. -/
def searchTrack (t : Track) (opts : SyncOptions) (provs : List ProvRes)
    (provForOk downloadOk : Bool) (failed : List Track) : List Char × List Track :=
  if !t.isLocal || opts.source then
    match provLoop t provs none failed with
    | (none, failed2) => (t.url, failed2)
    | (some c, failed2) =>
        if t.url = c.url then (t.url, failed2)
        else if !provForOk then (t.url, failed2)
        else if !downloadOk then (t.url, failed2 ++ [t])
        else (c.url, failed2)
  else (t.url, failed)

/-- One working-set item as the search loop consumes it: the track and
options pair together with the external outcomes its acquisition meets. -/
structure SearchItem where
  track : Track
  opts : SyncOptions
  provs : List ProvRes
  provForOk : Bool
  downloadOk : Bool
  deriving DecidableEq, Repr

/-- Failure accumulation of the sequential search loop of mainSearch over
the working set, in iteration order, threading the global tracksFailed
list through every item. -/
def mainSearchFailures : List SearchItem → List Track → List Track
  | [], failed => failed
  | it :: rest, failed =>
      mainSearchFailures rest
        (searchTrack it.track it.opts it.provs it.provForOk it.downloadOk failed).2

/-- Final notification of mainSearch (main.go lines 652 to 660): the pair of
counts shown to the user, synced (len(tracks) - len(tracksFailed)) then
failed (len(tracksFailed)). -/
def mainSearchReport (items : List SearchItem) : Nat × Nat :=
  (items.length - (mainSearchFailures items []).length,
   (mainSearchFailures items []).length)

/-- Specification-side count of the failure appends the provider loop makes
for one track: one per non-erroring provider processed while no candidate
has been accepted yet. -/
def emptyAppendCount : List ProvRes → Nat
  | [] => 0
  | ProvRes.qerr :: rest => emptyAppendCount rest
  | ProvRes.res cands :: rest =>
      match pickEntry cands with
      | some _ => 0
      | none => emptyAppendCount rest + 1

/-- Externally observable actions of the post-processing pipeline: staging
the temporary copy, ffmpeg volume detection, ffmpeg volume increase with its
gain, the metadata tag flush, the removal of the canonical file and the
final rename of the temporary file onto it. -/
inductive SongAction where
  | copyStage
  | volumeDetect
  | volumeIncrease (gain : ℚ)
  | metadataFlush
  | removeFinal
  | renameFinal
  deriving DecidableEq

/-- Embedding of songNormalize (main.go lines 772 to 787). The outcome of
ffmpeg VolumeDetect is passed in as detect and the outcome of the in-place
VolumeIncrease as increaseErr (none on success), both being external
subprocesses: with normalization off nothing happens; a detection error is
returned as is; a measured volume above zero returns without adjusting;
otherwise an in-place gain of math.Abs(volume) is applied. Returns the
actions run together with the error result. -/
def songNormalize (opts : SyncOptions) (detect : Except (List Char) ℚ)
    (increaseErr : Option (List Char)) : List SongAction × Option (List Char) :=
  if opts.normalization = false then ([], none)
  else
    match detect with
    | .error e => ([SongAction.volumeDetect], some e)
    | .ok volume =>
        if 0 < volume then ([SongAction.volumeDetect], none)
        else ([SongAction.volumeDetect, SongAction.volumeIncrease |volume|], increaseErr)

/-- Embedding of songMetadataFlush (main.go lines 789 to 795): nothing
happens unless the metadata option is set, in which case track.Flush writes
the tags (its outcome passed in as flushErr). -/
def songMetadataFlush (opts : SyncOptions) (flushErr : Option (List Char)) :
    List SongAction × Option (List Char) :=
  if opts.metadata = false then ([], none)
  else ([SongAction.metadataFlush], flushErr)

/-- Embedding of songProcess (main.go lines 740 to 770): when the temporary
file is absent it is staged by copying the local file, and a copy error is
the only early return; errors from songNormalize and songMetadataFlush are
appended to the log and processing continues regardless; finalization
removes the canonical file and renames the temporary file onto it. Returns
the actions run in order. -/
def songProcess (opts : SyncOptions) (tmpExists copyOk : Bool)
    (detect : Except (List Char) ℚ)
    (increaseErr flushErr : Option (List Char)) : List SongAction :=
  if tmpExists = false && copyOk = false then [SongAction.copyStage]
  else
    (if tmpExists = false then [SongAction.copyStage] else [])
      ++ (songNormalize opts detect increaseErr).1
      ++ (songMetadataFlush opts flushErr).1
      ++ [SongAction.removeFinal, SongAction.renameFinal]

/-- Capacity of the post-processing pool: concurrencyLimit (main.go line
33), the buffer size of the waitGroupPool channel, pre-filled by mainInit. -/
def concurrencyLimit : Nat := 100

/-- Pool-side events of a songProcess call: receiving a token from
waitGroupPool and sending it back. -/
inductive PoolEvent where
  | acquire
  | release
  deriving DecidableEq, Repr

/-- State of the waitGroupPool semaphore: tokens free in the channel and
songProcess tasks currently past the acquire. -/
structure PoolState where
  free : Nat
  active : Nat
  deriving DecidableEq, Repr

/-- Transitions of the pool: an acquire consumes a token — no transition
exists from a zero-token state, which is the channel receive blocking — and
a release on any songProcess exit path returns one. -/
inductive PoolStep : PoolState → PoolState → Prop
  | acquire (free active : Nat) :
      PoolStep ⟨free + 1, active⟩ ⟨free, active + 1⟩
  | release (free active : Nat) :
      PoolStep ⟨free, active + 1⟩ ⟨free + 1, active⟩

/-- Pool states reachable during a run: mainInit pre-loads concurrencyLimit
tokens, so the initial state is full with no active task. -/
inductive PoolReachable : PoolState → Prop
  | init : PoolReachable ⟨concurrencyLimit, 0⟩
  | step {s s2 : PoolState} : PoolReachable s → PoolStep s s2 → PoolReachable s2

/-- Combined trace of one songProcess call as the pool sees it (main.go
lines 740 to 745): the token is taken from waitGroupPool immediately on
entry, and a deferred send returns it after everything else on every exit
path, the early staging return included. -/
def songProcessTrace (opts : SyncOptions) (tmpExists copyOk : Bool)
    (detect : Except (List Char) ℚ) (increaseErr flushErr : Option (List Char)) :
    List (Sum PoolEvent SongAction) :=
  Sum.inl PoolEvent.acquire ::
    ((songProcess opts tmpExists copyOk detect increaseErr flushErr).map Sum.inr
      ++ [Sum.inl PoolEvent.release])

/-- Control points of the coordinating thread of main.go: the source-fetch
phase (the only place system.DumpGob persists cache snapshots), the
sequential search loop (the only place songProcess tasks are dispatched),
the phase past the waitGroup barrier of line 642 (playlist flush and
index.Sync at line 646), the final-report phase past the close and second
Wait of lines 648 to 649, and process exit via mainExit. -/
inductive MainPC where
  | fetchPhase
  | searchLoop
  | persistPhase
  | reportPhase
  | exitPhase
  deriving DecidableEq, Repr

/-- State of the coordinating control flow: the program counter plus the
counts of songProcess tasks dispatched so far and completed so far. -/
structure MainState where
  pc : MainPC
  dispatched : Nat
  completed : Nat
  deriving DecidableEq, Repr

/-- Transitions of the main control flow: the fetch phase ends into the
search loop; the loop may dispatch a task; a dispatched task may complete at
any time while incomplete tasks remain; waitGroup.Wait at line 642 lets the
loop phase end only once every dispatched task has completed, and likewise
the close and second Wait at lines 648 to 649 guard the final report; the
run exits from the report phase. -/
inductive MainStep : MainState → MainState → Prop
  | fetchDone (d c : Nat) :
      MainStep ⟨MainPC.fetchPhase, d, c⟩ ⟨MainPC.searchLoop, d, c⟩
  | dispatch (d c : Nat) :
      MainStep ⟨MainPC.searchLoop, d, c⟩ ⟨MainPC.searchLoop, d + 1, c⟩
  | complete (pc : MainPC) (d c : Nat) (h : c < d) :
      MainStep ⟨pc, d, c⟩ ⟨pc, d, c + 1⟩
  | waitBarrier (d : Nat) :
      MainStep ⟨MainPC.searchLoop, d, d⟩ ⟨MainPC.persistPhase, d, d⟩
  | closeBarrier (d : Nat) :
      MainStep ⟨MainPC.persistPhase, d, d⟩ ⟨MainPC.reportPhase, d, d⟩
  | exitStep (d c : Nat) :
      MainStep ⟨MainPC.reportPhase, d, c⟩ ⟨MainPC.exitPhase, d, c⟩

/-- Main-flow states reachable from program start. -/
inductive MainReachable : MainState → Prop
  | init : MainReachable ⟨MainPC.fetchPhase, 0, 0⟩
  | step {s s2 : MainState} : MainReachable s → MainStep s s2 → MainReachable s2

/-- Inductive invariant of the main control flow: completions never exceed
dispatches, nothing is dispatched before the search loop starts, and past
the waitGroup barrier every dispatched task has completed. -/
def MainInvariant (s : MainState) : Prop :=
  s.completed ≤ s.dispatched ∧
  (s.pc = MainPC.fetchPhase → s.dispatched = 0) ∧
  ((s.pc = MainPC.persistPhase ∨ s.pc = MainPC.reportPhase ∨ s.pc = MainPC.exitPhase) →
    s.completed = s.dispatched)

/-- Embedding of Go strings.Split(s, sep) for the one-character separator
used by parsePlaylistURI, over strings as character lists: the string is
split around every occurrence of the separator, and the empty string yields
a single empty field. -/
def goSplit (sep : Char) : List Char → List (List Char)
  | [] => [[]]
  | c :: rest =>
      if c = sep then [] :: goSplit sep rest
      else
        match goSplit sep rest with
        | [] => [[c]]
        | f :: fs => (c :: f) :: fs

/-- Embedding of Go strings.Count(s, sep) for a one-character separator: the
number of occurrences of the separator character. -/
def goCount (sep : Char) (s : List Char) : Nat :=
  s.count sep

/-- Embedding of parsePlaylistURI (spotify.go lines 191 to 196): with
exactly four colons the URI is split on colons and the third and fifth
fields are returned as the owner segment and the playlist ID; any other
colon count yields the malformed-URI error. -/
def parsePlaylistURI (playlistURI : List Char) :
    Except (List Char) (List Char × List Char) :=
  if goCount ':' playlistURI = 4 then
    Except.ok ((goSplit ':' playlistURI).getD 2 [], (goSplit ':' playlistURI).getD 4 [])
  else
    Except.error ("Malformed playlist URI: expected 5 columns.".toList)

/-- External Spotify client behaviour as the PlaylistTracks chunk loop
consumes it: for each page offset, either the network errors or a chunk of
rows comes back, each row a track record tagged with its IsLocal flag. -/
structure PlaylistClient where
  chunkAt : Nat → Except (List Char) (List (Bool × List Char))

/-- Embedding of the chunk loop of PlaylistTracks (spotify.go lines 94 to
109), the unbounded for-loop bounded by fuel: page offsets advance by 50 per
iteration, a chunk error aborts the call, non-local rows are accumulated in
order, and a chunk shorter than 50 rows ends the loop. -/
def playlistTracksLoop (cl : PlaylistClient) :
    Nat → Nat → List (List Char) → Except (List Char) (List (List Char))
  | 0, _, _ => Except.error ("out of fuel".toList)
  | fuel + 1, iterations, acc =>
      match cl.chunkAt (50 * iterations) with
      | .error e => .error e
      | .ok chunk =>
          let acc2 := acc ++ (chunk.filter (fun r => !r.1)).map (fun r => r.2)
          if chunk.length < 50 then .ok acc2
          else playlistTracksLoop cl fuel (iterations + 1) acc2

/-- Embedding of PlaylistTracks (spotify.go lines 84 to 111): the playlist
URI is parsed first — a malformed URI aborts before any network call — then
the chunk loop collects the playlist's non-local tracks. -/
def PlaylistTracks (cl : PlaylistClient) (fuel : Nat) (playlistURI : List Char) :
    Except (List Char) (List (List Char)) :=
  match parsePlaylistURI playlistURI with
  | .error e => .error e
  | .ok _ => playlistTracksLoop cl fuel 0 []

/-- Embedding of Playlist (spotify.go lines 75 to 81): the URI is parsed
first, then the playlist metadata is fetched by ID (the GetPlaylist outcome
supplied by getPlaylist). -/
def Playlist (getPlaylist : List Char → Except (List Char) (List Char))
    (playlistURI : List Char) : Except (List Char) (List Char) :=
  match parsePlaylistURI playlistURI with
  | .error e => .error e
  | .ok pid => getPlaylist pid.2

/-- Embedding of the removal loop of RemovePlaylistTracks (spotify.go lines
126 to 140), fuel-bounded: IDs are removed in slices of at most 50 (the
lowerbound and clamped upperbound of the Go code), a removal error aborts,
and a slice shorter than 50 ends the loop. The per-slice outcome is supplied
by removeChunk. -/
def removeLoop (removeChunk : List Char → List (List Char) → Option (List Char))
    (pid : List Char) (ids : List (List Char)) :
    Nat → Nat → Except (List Char) Unit
  | 0, _ => Except.error ("out of fuel".toList)
  | fuel + 1, iterations =>
      let chunk := (ids.drop (iterations * 50)).take 50
      match removeChunk pid chunk with
      | some e => .error e
      | none =>
          if chunk.length < 50 then .ok ()
          else removeLoop removeChunk pid ids fuel (iterations + 1)

/-- Embedding of RemovePlaylistTracks (spotify.go lines 114 to 142): an
empty ID list returns success immediately, before the URI is even parsed;
otherwise the URI is parsed and the IDs are removed in chunks of 50. -/
def RemovePlaylistTracks (removeChunk : List Char → List (List Char) → Option (List Char))
    (fuel : Nat) (playlistURI : List Char) (ids : List (List Char)) :
    Except (List Char) Unit :=
  if ids.length = 0 then Except.ok ()
  else
    match parsePlaylistURI playlistURI with
    | .error e => .error e
    | .ok pid => removeLoop removeChunk pid.2 ids fuel 0

theorem keyInvariant_empty : KeyInvariant WorkingState.empty := by
  intro k
  simp [WorkingState.empty, countKey]

theorem countKey_inflate (t : Track) (opts : SyncOptions) (s : WorkingState)
    (hdup : t.filenameTemporary ∉ s.tracksIndex) (k : List Char) :
    countKey k (tracksInflateWithOption t opts s)
      = countKey k s + (if t.filenameTemporary = k then 1 else 0) := by
  simp only [tracksInflateWithOption, if_neg hdup, countKey, List.countP_append]
  by_cases h : t.filenameTemporary = k <;>
    simp [List.countP_cons, h]

theorem keyInvariant_inflate (t : Track) (opts : SyncOptions) (s : WorkingState)
    (h : KeyInvariant s) : KeyInvariant (tracksInflateWithOption t opts s) := by
  by_cases hdup : t.filenameTemporary ∈ s.tracksIndex
  · simpa [tracksInflateWithOption, hdup] using h
  · intro k
    have hs := h k
    have hcount := countKey_inflate t opts s hdup k
    have hidx : (tracksInflateWithOption t opts s).tracksIndex
        = t.filenameTemporary :: s.tracksIndex := by
      simp [tracksInflateWithOption, hdup]
    by_cases hk : t.filenameTemporary = k
    · subst hk
      have h0 : countKey t.filenameTemporary s = 0 := by
        rcases Nat.eq_or_lt_of_le hs.2 with h1 | h1
        · exact absurd (hs.1.mpr h1) hdup
        · omega
      constructor
      · rw [hidx]
        simp [hcount, h0]
      · simp [hcount, h0]
    · have hk2 : k ≠ t.filenameTemporary := fun e => hk e.symm
      rw [hidx, hcount, if_neg hk]
      simpa [hk2] using hs

theorem mem_tracksIndex_inflate (t : Track) (opts : SyncOptions) (s : WorkingState) :
    t.filenameTemporary ∈ (tracksInflateWithOption t opts s).tracksIndex := by
  by_cases h : t.filenameTemporary ∈ s.tracksIndex <;>
    simp [tracksInflateWithOption, h]

theorem tracksIndex_mono_inflate (t : Track) (opts : SyncOptions) (s : WorkingState) :
    s.tracksIndex ⊆ (tracksInflateWithOption t opts s).tracksIndex := by
  intro k hk
  by_cases h : t.filenameTemporary ∈ s.tracksIndex
  · simpa [tracksInflateWithOption, h] using hk
  · simp only [tracksInflateWithOption, if_neg h, List.mem_cons]
    exact Or.inr hk

theorem keyInvariant_ingestAll (norm : Bool) (ts : List Track) (s : WorkingState)
    (h : KeyInvariant s) : KeyInvariant (ingestAll norm ts s) := by
  induction ts generalizing s with
  | nil => exact h
  | cons t rest ih =>
    exact ih _ (keyInvariant_inflate t _ s h)

theorem tracksIndex_mono_ingestAll (norm : Bool) (ts : List Track) (s : WorkingState) :
    s.tracksIndex ⊆ (ingestAll norm ts s).tracksIndex := by
  induction ts generalizing s with
  | nil => exact fun _ hk => hk
  | cons t rest ih =>
    intro k hk
    exact ih _ (tracksIndex_mono_inflate t _ s hk)

theorem mem_tracksIndex_ingestAll (norm : Bool) (ts : List Track) (t : Track) :
    ∀ s : WorkingState, t ∈ ts → t.filenameTemporary ∈ (ingestAll norm ts s).tracksIndex := by
  induction ts with
  | nil => intro s ht; cases ht
  | cons a rest ih =>
    intro s ht
    rcases List.mem_cons.mp ht with h | h
    · subst h
      exact tracksIndex_mono_ingestAll norm rest _ (mem_tracksIndex_inflate t _ s)
    · exact ih _ h

/-- C1: working-set ingestion is idempotent per canonical temporary filename
— when the key t.FilenameTemporary is already present in tracksIndex,
tracksInflateWithOption leaves both the tracks map and tracksIndex unchanged
— and consequently, after ingesting any sequence of fetched sources into the
empty working set, every ingested track has exactly one working-set entry
under its canonical temporary filename. -/
theorem tracksInflateWithOption_idempotent_dedup :
    (∀ (t : Track) (opts : SyncOptions) (s : WorkingState),
        t.filenameTemporary ∈ s.tracksIndex → tracksInflateWithOption t opts s = s) ∧
    (∀ (norm : Bool) (ts : List Track) (t : Track), t ∈ ts →
        countKey t.filenameTemporary (ingestAll norm ts WorkingState.empty) = 1) := by
  constructor
  · intro t opts s h
    simp [tracksInflateWithOption, h]
  · intro norm ts t ht
    have hinv := keyInvariant_ingestAll norm ts WorkingState.empty keyInvariant_empty
    exact (hinv t.filenameTemporary).1.mp (mem_tracksIndex_ingestAll norm ts t _ ht)

/-- Witness for C1: re-ingesting trackA into a state already holding its key
is a no-op, and ingesting a source listing trackA twice yields exactly one
entry for it. -/
theorem tracksInflateWithOption_idempotent_dedup_witness :
    tracksInflateWithOption trackA (SyncOptionsDefault true) stateA = stateA ∧
    countKey trackA.filenameTemporary
      (ingestAll true [trackA, trackA] WorkingState.empty) = 1 :=
  ⟨tracksInflateWithOption_idempotent_dedup.1 trackA (SyncOptionsDefault true) stateA
      (by decide),
   tracksInflateWithOption_idempotent_dedup.2 true [trackA, trackA] trackA (by decide)⟩

/-- C7: tracksInflate assigns the flush options (source fetch required,
metadata flush required) when the track is not already local, and the
default options (no forced source re-fetch, no metadata flush unless
separately flagged) when it is local. -/
theorem tracksInflate_defaults (norm : Bool) (t : Track) (s : WorkingState) :
    (t.isLocal = false →
      tracksInflate norm t s = tracksInflateWithOption t ⟨true, true, norm⟩ s) ∧
    (t.isLocal = true →
      tracksInflate norm t s = tracksInflateWithOption t ⟨false, false, norm⟩ s) := by
  constructor <;> intro h <;>
    simp [tracksInflate, h, SyncOptionsFlush, SyncOptionsDefault]

/-- Witness for C7: the non-local trackA receives the flush options and the
local trackB receives the default options. -/
theorem tracksInflate_defaults_witness :
    tracksInflate true trackA WorkingState.empty
        = tracksInflateWithOption trackA ⟨true, true, true⟩ WorkingState.empty ∧
    tracksInflate true trackB WorkingState.empty
        = tracksInflateWithOption trackB ⟨false, false, true⟩ WorkingState.empty :=
  ⟨(tracksInflate_defaults true trackA WorkingState.empty).1 rfl,
   (tracksInflate_defaults true trackB WorkingState.empty).2 rfl⟩

/-- C8: after the second pass, flush-local forces Source on every entry, and
either flush flag forces Metadata on every entry; the pass never alters any
entry's normalization flag (nor the track keys or tracksIndex). -/
theorem mainFetchOverride_spec (fl fm : Bool) (s : WorkingState) :
    (fl = true → ∀ p ∈ (mainFetchOverride fl fm s).tracks, p.2.source = true) ∧
    ((fl = true ∨ fm = true) → ∀ p ∈ (mainFetchOverride fl fm s).tracks, p.2.metadata = true) ∧
    (mainFetchOverride fl fm s).tracks.map (fun p => (p.1, p.2.normalization))
      = s.tracks.map (fun p => (p.1, p.2.normalization)) ∧
    (mainFetchOverride fl fm s).tracksIndex = s.tracksIndex := by
  refine ⟨?_, ?_, ?_, ?_⟩
  · intro hfl p hp
    subst hfl
    simp only [mainFetchOverride, Bool.true_or, if_true] at hp
    rcases List.mem_map.mp hp with ⟨q, hq, rfl⟩
    rfl
  · intro hor p hp
    have hif : (fl || fm) = true := by
      rcases hor with h | h <;> simp [h]
    simp only [mainFetchOverride, hif, if_true] at hp
    rcases List.mem_map.mp hp with ⟨q, hq, rfl⟩
    rfl
  · by_cases hif : (fl || fm) = true
    · simp [mainFetchOverride, hif, List.map_map, Function.comp]
    · simp [mainFetchOverride, hif]
  · by_cases hif : (fl || fm) = true <;> simp [mainFetchOverride, hif]

/-- Witness for C8: with both flush flags set over stateA, every entry has
Source and Metadata set. -/
theorem mainFetchOverride_spec_witness :
    (∀ p ∈ (mainFetchOverride true true stateA).tracks, p.2.source = true) ∧
    (∀ p ∈ (mainFetchOverride true true stateA).tracks, p.2.metadata = true) :=
  ⟨(mainFetchOverride_spec true true stateA).1 rfl,
   (mainFetchOverride_spec true true stateA).2.1 (Or.inl rfl)⟩

/-- C2: fetchDump fails exactly when the snapshot read fails or the snapshot
age exceeds the 30 minute TTL; every fetchDump failure makes the caller fall
through to a live fetch; and a snapshot stored at time T is returned
successfully 29 minutes later and rejected 31 minutes later. -/
theorem fetchDump_ttl :
    (∀ (r : Except (List Char) TracksDump) (now : Nat),
        isErr (fetchDump r now) = true ↔
          (∃ e, r = Except.error e) ∨
            ∃ dump, r = Except.ok dump ∧ cacheDuration < timeSince now dump.time) ∧
    (∀ (r : Except (List Char) TracksDump) (now : Nat),
        isErr (fetchDump r now) = true → usesCache r now = false) ∧
    (∀ dump : TracksDump,
        fetchDump (Except.ok dump) (dump.time + 29 * timeMinute) = Except.ok dump ∧
        isErr (fetchDump (Except.ok dump) (dump.time + 31 * timeMinute)) = true) := by
  refine ⟨?_, ?_, ?_⟩
  · intro r now
    match r with
    | .error e => simp [fetchDump, isErr]
    | .ok dump =>
      by_cases h : cacheDuration < timeSince now dump.time <;>
        simp [fetchDump, isErr, h]
  · intro r now h
    match r with
    | .error e => simp [usesCache, fetchDump]
    | .ok dump =>
      by_cases hc : cacheDuration < timeSince now dump.time
      · simp [usesCache, fetchDump, hc]
      · simp [fetchDump, isErr, hc] at h
  · intro dump
    have h29 : timeSince (dump.time + 29 * timeMinute) dump.time = 29 * timeMinute := by
      simp [timeSince]
    have h31 : timeSince (dump.time + 31 * timeMinute) dump.time = 31 * timeMinute := by
      simp [timeSince]
    constructor
    · have hlt : ¬ cacheDuration < 29 * timeMinute := by
        simp only [cacheDuration, timeMinute]
        omega
      simp [fetchDump, h29, hlt]
    · have hlt : cacheDuration < 31 * timeMinute := by
        simp only [cacheDuration, timeMinute]
        omega
      simp [fetchDump, isErr, h31, hlt]

/-- Witness for C2: an unreadable snapshot makes the caller fall through to a
live fetch, and the concrete snapshot dumpA is still returned 29 minutes
after it was stored. -/
theorem fetchDump_ttl_witness :
    usesCache (Except.error "missing".toList) 5 = false ∧
    fetchDump (Except.ok dumpA) (dumpA.time + 29 * timeMinute) = Except.ok dumpA :=
  ⟨fetchDump_ttl.2.1 (Except.error "missing".toList) 5 (by decide),
   (fetchDump_ttl.2.2 dumpA).1⟩

theorem indexLookup_indexRename (idx : RenameIndex) (id f : List Char) :
    indexLookup (indexRename idx id f) id = some f := by
  induction idx with
  | nil => simp [indexRename, indexLookup]
  | cons p rest ih =>
    obtain ⟨i, g⟩ := p
    by_cases h : i = id <;> simp [indexRename, indexLookup, h, ih]

/-- Counterexample for C3: at this concrete input the index reports a
mismatch with no error and the on-disk rename succeeds, yet the forced
re-download flag stays set, because mainSearch clears trackOpts.Source only
under the guard argFlushLocal == false — the claim asserts the flag is
cleared whenever the rename succeeds. -/
theorem renameRepair_flushLocal_counterexample :
    ((renameRepair true true idxC trackC ⟨true, true, true⟩).2).source = true := by
  decide

/-- C3 (amended): when Match reports a recorded path with matches false and
no error, then on a successful on-disk rename the index is updated through
Rename so that a subsequent Match for the same ID and expected filename
returns matches true, and the forced re-download flag is cleared unless the
flush-local flag is set, in which case the options are left untouched; on a
failed on-disk rename only a warning is emitted and the index and options,
including the forced re-download flag, are left unchanged. -/
theorem renameRepair_spec (flushLocal renameOk : Bool) (idx : RenameIndex)
    (t : Track) (opts : SyncOptions) (p : List Char)
    (h : indexMatch idx t.spotifyID t.filename = .ok (p, false)) :
    (renameOk = true →
      (renameRepair flushLocal renameOk idx t opts).1
          = indexRename idx t.spotifyID t.filename ∧
      indexMatch (renameRepair flushLocal renameOk idx t opts).1
          t.spotifyID t.filename = .ok (t.filename, true) ∧
      (flushLocal = false →
        ((renameRepair flushLocal renameOk idx t opts).2).source = false) ∧
      (flushLocal = true →
        (renameRepair flushLocal renameOk idx t opts).2 = opts)) ∧
    (renameOk = false →
      renameRepair flushLocal renameOk idx t opts = (idx, opts)) := by
  constructor
  · intro hok
    subst hok
    have hrep : renameRepair flushLocal true idx t opts
        = (indexRename idx t.spotifyID t.filename,
           if flushLocal then opts else { opts with source := false }) := by
      simp [renameRepair, h]
    refine ⟨by rw [hrep], ?_, ?_, ?_⟩
    · rw [hrep]
      simp [indexMatch, indexLookup_indexRename]
    · intro hfl
      subst hfl
      rw [hrep]
      simp
    · intro hfl
      subst hfl
      rw [hrep]
      simp
  · intro hko
    subst hko
    simp [renameRepair, h]

/-- Witness for C3 (amended): on the concrete mismatching index idxC with
flush-local unset and a successful disk rename, the repaired index matches
the expected filename and the forced re-download flag ends up cleared. -/
theorem renameRepair_spec_witness :
    indexMatch (renameRepair false true idxC trackC ⟨true, true, true⟩).1
        trackC.spotifyID trackC.filename = .ok (trackC.filename, true) ∧
    ((renameRepair false true idxC trackC ⟨true, true, true⟩).2).source = false :=
  ⟨((renameRepair_spec false true idxC trackC ⟨true, true, true⟩
      ("A.mp3".toList) rfl).1 rfl).2.1,
   (((renameRepair_spec false true idxC trackC ⟨true, true, true⟩
      ("A.mp3".toList) rfl).1 rfl).2.2).1 rfl⟩

theorem provLoop_acc (t : Track) :
    ∀ (provs : List ProvRes) (entry : Option Cand) (failed : List Track),
      provLoop t provs entry failed
        = ((provLoop t provs entry []).1, failed ++ (provLoop t provs entry []).2) := by
  intro provs
  induction provs with
  | nil => intro entry failed; simp [provLoop]
  | cons r rest ih =>
    intro entry failed
    cases r with
    | qerr => simpa [provLoop] using ih entry failed
    | res cands =>
      cases hp : pickEntry cands with
      | some c => simpa [provLoop, hp] using ih (some c) failed
      | none =>
        cases entry with
        | some c => simpa [provLoop, hp] using ih (some c) failed
        | none =>
          simp only [provLoop, hp]
          rw [ih none (failed ++ [t]), ih none ([] ++ [t])]
          simp

theorem provLoop_none_spec (t : Track) :
    ∀ (provs : List ProvRes) (failed : List Track),
      (provLoop t provs none failed).2
        = failed ++ List.replicate (emptyAppendCount provs) t := by
  intro provs
  induction provs with
  | nil => intro failed; simp [provLoop, emptyAppendCount]
  | cons r rest ih =>
    intro failed
    cases r with
    | qerr => simpa [provLoop, emptyAppendCount] using ih failed
    | res cands =>
      cases hp : pickEntry cands with
      | some c =>
        have hs : ∀ (rs : List ProvRes) (c : Cand) (fl : List Track),
            (provLoop t rs (some c) fl).2 = fl := by
          intro rs
          induction rs with
          | nil => intro c fl; simp [provLoop]
          | cons r2 rs2 ih2 =>
            intro c fl
            cases r2 with
            | qerr => simpa [provLoop] using ih2 c fl
            | res cands2 =>
              cases hp2 : pickEntry cands2 with
              | some c2 => simpa [provLoop, hp2] using ih2 c2 fl
              | none => simpa [provLoop, hp2] using ih2 c fl
        simp [provLoop, emptyAppendCount, hp, hs]
      | none =>
        simp only [provLoop, emptyAppendCount, hp]
        rw [ih (failed ++ [t])]
        simp [List.replicate_succ, List.append_assoc, List.singleton_append]

theorem searchTrack_acc (t : Track) (opts : SyncOptions) (provs : List ProvRes)
    (pf dl : Bool) (failed : List Track) :
    (searchTrack t opts provs pf dl failed).2
      = failed ++ (searchTrack t opts provs pf dl []).2 := by
  by_cases hl : (!t.isLocal || opts.source) = true
  · simp only [searchTrack, if_pos hl]
    rw [provLoop_acc t provs none failed, provLoop_acc t provs none []]
    cases h1 : (provLoop t provs none []).1 with
    | none => simp
    | some c =>
      by_cases h2 : t.url = c.url
      · simp [h2]
      · cases pf <;> cases dl <;> simp [h2, List.append_assoc]
  · simp [searchTrack, hl]

theorem mainSearchFailures_acc :
    ∀ (items : List SearchItem) (failed : List Track),
      mainSearchFailures items failed = failed ++ mainSearchFailures items [] := by
  intro items
  induction items with
  | nil => intro failed; simp [mainSearchFailures]
  | cons it rest ih =>
    intro failed
    simp only [mainSearchFailures]
    rw [ih ((searchTrack it.track it.opts it.provs it.provForOk it.downloadOk failed).2),
        ih ((searchTrack it.track it.opts it.provs it.provForOk it.downloadOk []).2),
        searchTrack_acc]
    simp [List.append_assoc]

/-- Counterexample for C4: this track needs acquisition and is searched over
two providers, both answering with a candidate list containing no accepted
candidate; it ends up twice in the failure list, not exactly once, because
the tracksFailed append sits inside the provider loop of mainSearch and runs
once per provider left without an accepted entry. -/
theorem mainSearch_failures_counterexample :
    mainSearchFailures
      [⟨trackA, SyncOptionsFlush true, [ProvRes.res [], ProvRes.res []], true, true⟩] []
      = [trackA, trackA] := by
  rfl

/-- C4 (amended): a provider whose query errors is skipped, without aborting
the run and without any failure record; during the provider loop the track
is appended to the failure list once per non-erroring provider processed
while no candidate has yet been accepted (hence several times when several
such providers run, and zero times when every provider errors); a failed
download appends the track once more; the failure list is accumulated across
the whole run, each track appending its own entries in order after the
previously accumulated list, and is drained only by the final report, which
counts the working-set size minus the failure-list length as synced. -/
theorem mainSearch_failures_spec :
    (∀ (t : Track) (rest : List ProvRes) (entry : Option Cand) (failed : List Track),
        provLoop t (ProvRes.qerr :: rest) entry failed = provLoop t rest entry failed) ∧
    (∀ (t : Track) (provs : List ProvRes) (failed : List Track),
        (provLoop t provs none failed).2
          = failed ++ List.replicate (emptyAppendCount provs) t) ∧
    (∀ (t : Track) (opts : SyncOptions) (provs : List ProvRes) (failed : List Track)
        (c : Cand),
        (!t.isLocal || opts.source) = true →
        (provLoop t provs none []).1 = some c →
        t.url ≠ c.url →
        (searchTrack t opts provs true false failed).2
          = (failed ++ List.replicate (emptyAppendCount provs) t) ++ [t]) ∧
    (∀ (items : List SearchItem) (failed : List Track),
        mainSearchFailures items failed = failed ++ mainSearchFailures items []) ∧
    (∀ items : List SearchItem,
        mainSearchReport items
          = (items.length - (mainSearchFailures items []).length,
             (mainSearchFailures items []).length)) := by
  refine ⟨?_, provLoop_none_spec, ?_, mainSearchFailures_acc, ?_⟩
  · intro t rest entry failed
    rfl
  · intro t opts provs failed c hl hc hurl
    simp only [searchTrack, if_pos hl]
    rw [provLoop_acc t provs none failed, hc]
    simp only [if_neg hurl, Bool.not_true, Bool.not_false, Bool.false_eq_true,
      if_neg, if_pos]
    rw [provLoop_none_spec t provs []]
    simp
  · intro items
    rfl

/-- Witness for C4 (amended): a non-erroring provider offers an accepted
candidate at a fresh URL, the download fails, and the failure list gains the
one download-failure append. -/
theorem mainSearch_failures_spec_witness :
    (searchTrack trackA (SyncOptionsFlush true)
        [ProvRes.res [⟨"urlx".toList, true⟩]] true false []).2
      = ([] ++ List.replicate
            (emptyAppendCount [ProvRes.res [⟨"urlx".toList, true⟩]]) trackA) ++ [trackA] :=
  mainSearch_failures_spec.2.2.1 trackA (SyncOptionsFlush true)
    [ProvRes.res [⟨"urlx".toList, true⟩]] [] ⟨"urlx".toList, true⟩ rfl rfl (by decide)

theorem poolReachable_sum :
    ∀ s : PoolState, PoolReachable s → s.free + s.active = concurrencyLimit := by
  intro s h
  induction h with
  | init => rfl
  | step hr hstep ih =>
    cases hstep with
    | acquire f a =>
      have ih2 : f + 1 + a = concurrencyLimit := ih
      show f + (a + 1) = concurrencyLimit
      omega
    | release f a =>
      have ih2 : f + (a + 1) = concurrencyLimit := ih
      show f + 1 + a = concurrencyLimit
      omega

/-- C5: in every reachable pool state at most concurrencyLimit = 100
songProcess tasks are past the semaphore acquire; from a state with no free
token no transition increases the active count (the channel receive blocks
until a slot is freed); and the trace of every songProcess execution path
starts with exactly its acquire and ends with its release, which is
performed by a deferred send on every exit path. -/
theorem pool_bound :
    (∀ s : PoolState, PoolReachable s → s.active ≤ concurrencyLimit) ∧
    (∀ s s2 : PoolState, PoolStep s s2 → s.free = 0 → s2.active ≤ s.active) ∧
    (∀ (opts : SyncOptions) (tmpExists copyOk : Bool) (detect : Except (List Char) ℚ)
        (increaseErr flushErr : Option (List Char)),
      (songProcessTrace opts tmpExists copyOk detect increaseErr flushErr).head?
          = some (Sum.inl PoolEvent.acquire) ∧
      (songProcessTrace opts tmpExists copyOk detect increaseErr flushErr).getLast?
          = some (Sum.inl PoolEvent.release) ∧
      ∀ e ∈ (songProcess opts tmpExists copyOk detect increaseErr flushErr).map Sum.inr,
        ∀ p : PoolEvent, e ≠ Sum.inl p) := by
  refine ⟨?_, ?_, ?_⟩
  · intro s h
    have := poolReachable_sum s h
    omega
  · intro s s2 hstep hfree
    cases hstep with
    | acquire f a =>
      have : f + 1 = 0 := hfree
      omega
    | release f a =>
      show a ≤ a + 1
      omega
  · intro opts tmpExists copyOk detect increaseErr flushErr
    refine ⟨rfl, ?_, ?_⟩
    · show (Sum.inl PoolEvent.acquire ::
          ((songProcess opts tmpExists copyOk detect increaseErr flushErr).map Sum.inr
            ++ [Sum.inl PoolEvent.release])).getLast? = some (Sum.inl PoolEvent.release)
      rw [← List.cons_append, List.getLast?_concat]
    · intro e he p
      rcases List.mem_map.mp he with ⟨a, _, rfl⟩
      simp

/-- Witness for C5: the pool state with one active task after a single
acquire from the full pool respects the bound, and from an empty pool a
release step does not increase the active count. -/
theorem pool_bound_witness :
    (⟨99, 1⟩ : PoolState).active ≤ concurrencyLimit ∧
    (⟨1, 0⟩ : PoolState).active ≤ (⟨0, 1⟩ : PoolState).active :=
  ⟨pool_bound.1 ⟨99, 1⟩
      (PoolReachable.step PoolReachable.init (PoolStep.acquire 99 0)),
   pool_bound.2.1 ⟨0, 1⟩ ⟨1, 0⟩ (PoolStep.release 0 0) rfl⟩

theorem mainReachable_invariant :
    ∀ s : MainState, MainReachable s → MainInvariant s := by
  intro s h
  induction h with
  | init =>
    refine ⟨Nat.le_refl 0, fun _ => rfl, ?_⟩
    rintro (h | h | h) <;> simp at h
  | step hr hstep ih =>
    cases hstep with
    | fetchDone d c =>
      rcases ih with ⟨h1, h2, h3⟩
      refine ⟨h1, ?_, ?_⟩ <;> intro h <;> simp_all
    | dispatch d c =>
      rcases ih with ⟨h1, h2, h3⟩
      have h1b : c ≤ d := h1
      refine ⟨?_, ?_, ?_⟩
      · show c ≤ d + 1
        omega
      · intro h; simp_all
      · intro h; simp_all
    | complete pc d c hlt =>
      rcases ih with ⟨h1, h2, h3⟩
      have h1b : c ≤ d := h1
      refine ⟨?_, h2, ?_⟩
      · show c + 1 ≤ d
        omega
      · intro h
        have hcd : c = d := h3 h
        show c + 1 = d
        omega
    | waitBarrier d =>
      exact ⟨Nat.le_refl d, by intro h; simp at h, fun _ => rfl⟩
    | closeBarrier d =>
      exact ⟨Nat.le_refl d, by intro h; simp at h, fun _ => rfl⟩
    | exitStep d c =>
      rcases ih with ⟨h1, h2, h3⟩
      have hc : c = d := h3 (Or.inr (Or.inl rfl))
      exact ⟨h1, by intro h; simp at h, fun _ => hc⟩

/-- C6: along every reachable state of the modelled control flow, cache
snapshots are only persisted in the fetch phase where no post-processing
task has been dispatched yet, the index persist point (index.Sync, reached
only past the waitGroup barrier) sees every dispatched songProcess task
completed, and so does process termination. -/
theorem persistence_barrier :
    ∀ s : MainState, MainReachable s →
      (s.pc = MainPC.fetchPhase → s.dispatched = 0) ∧
      (s.pc = MainPC.persistPhase → s.completed = s.dispatched) ∧
      (s.pc = MainPC.exitPhase → s.completed = s.dispatched) := by
  intro s h
  have hi := mainReachable_invariant s h
  exact ⟨hi.2.1, fun hp => hi.2.2 (Or.inl hp), fun hp => hi.2.2 (Or.inr (Or.inr hp))⟩

/-- Witness for C6: a run that dispatches one task, sees it complete and
passes the waitGroup barrier reaches the persist phase with every dispatched
task completed. -/
theorem persistence_barrier_witness :
    (⟨MainPC.persistPhase, 1, 1⟩ : MainState).completed
      = (⟨MainPC.persistPhase, 1, 1⟩ : MainState).dispatched :=
  (persistence_barrier ⟨MainPC.persistPhase, 1, 1⟩
    (MainReachable.step
      (MainReachable.step
        (MainReachable.step
          (MainReachable.step MainReachable.init (MainStep.fetchDone 0 0))
          (MainStep.dispatch 0 0))
        (MainStep.complete MainPC.searchLoop 1 0 (by omega)))
      (MainStep.waitBarrier 1))).2.1 rfl

/-- Counterexample for C9: with normalization requested and a measured
volume of exactly zero — not below the zero reference — songNormalize still
runs the in-place VolumeIncrease (with gain zero), because the code skips
the adjustment only when the measured volume is strictly above zero. -/
theorem songNormalize_zero_counterexample :
    (songNormalize ⟨true, true, true⟩ (Except.ok 0) none).1
      = [SongAction.volumeDetect, SongAction.volumeIncrease 0] ∧ ¬ ((0 : ℚ) < 0) := by
  constructor
  · simp [songNormalize]
  · exact lt_irrefl 0

/-- C9 (amended): songNormalize does nothing and returns no error when the
plan does not request normalization; otherwise it measures the loudness and
applies a compensating in-place gain of the absolute measured volume exactly
when the measured volume is at or below zero (never when it is strictly
above zero); songMetadataFlush writes the tags exactly when the metadata
option is set; and in songProcess an error outcome from either stage is only
logged — whatever those outcomes are, once staging succeeded the track still
reaches finalization, which removes the canonical file and renames the
temporary file onto it. -/
theorem songPipeline_spec :
    (∀ (opts : SyncOptions) (detect : Except (List Char) ℚ)
        (increaseErr : Option (List Char)),
        (opts.normalization = false → songNormalize opts detect increaseErr = ([], none)) ∧
        (opts.normalization = true → ∀ v : ℚ, detect = Except.ok v →
          ((∃ g, SongAction.volumeIncrease g
              ∈ (songNormalize opts detect increaseErr).1) ↔ v ≤ 0) ∧
          (v ≤ 0 → (songNormalize opts detect increaseErr).1
              = [SongAction.volumeDetect, SongAction.volumeIncrease |v|]))) ∧
    (∀ (opts : SyncOptions) (flushErr : Option (List Char)),
        (songMetadataFlush opts flushErr).1
          = if opts.metadata = true then [SongAction.metadataFlush] else []) ∧
    (∀ (opts : SyncOptions) (tmpExists copyOk : Bool) (detect : Except (List Char) ℚ)
        (increaseErr flushErr : Option (List Char)),
        (tmpExists = true ∨ copyOk = true) →
          SongAction.removeFinal
              ∈ songProcess opts tmpExists copyOk detect increaseErr flushErr ∧
          SongAction.renameFinal
              ∈ songProcess opts tmpExists copyOk detect increaseErr flushErr) := by
  refine ⟨?_, ?_, ?_⟩
  · intro opts detect increaseErr
    constructor
    · intro h
      simp [songNormalize, h]
    · intro h v hv
      subst hv
      by_cases hvpos : (0 : ℚ) < v
      · refine ⟨?_, ?_⟩
        · constructor
          · rintro ⟨g, hg⟩
            simp [songNormalize, h, hvpos] at hg
          · intro hle
            exact absurd hvpos (not_lt.mpr hle)
        · intro hle
          exact absurd hvpos (not_lt.mpr hle)
      · have hle : v ≤ 0 := not_lt.mp hvpos
        constructor
        · simp [songNormalize, h, hvpos, hle]
        · intro _
          simp [songNormalize, h, hvpos]
  · intro opts flushErr
    cases hm : opts.metadata <;> simp [songMetadataFlush, hm]
  · intro opts tmpExists copyOk detect increaseErr flushErr h
    cases tmpExists <;> cases copyOk <;> simp_all [songProcess]

/-- Witness for C9 (amended): a measured volume of minus two decibels is at
or below zero, so the detect step is followed by an in-place gain of two,
and a successfully staged track reaches the final rename. -/
theorem songPipeline_spec_witness :
    (songNormalize ⟨true, true, true⟩ (Except.ok (-2)) none).1
      = [SongAction.volumeDetect, SongAction.volumeIncrease |(-2 : ℚ)|] ∧
    SongAction.renameFinal
      ∈ songProcess ⟨true, true, true⟩ true true (Except.ok (-2)) none none :=
  ⟨((songPipeline_spec.1 ⟨true, true, true⟩ (Except.ok (-2)) none).2 rfl (-2) rfl).2
      (by norm_num),
   (songPipeline_spec.2.2 ⟨true, true, true⟩ true true (Except.ok (-2)) none none
      (Or.inl rfl)).2⟩

theorem goSplit_length (sep : Char) :
    ∀ s : List Char, (goSplit sep s).length = goCount sep s + 1 := by
  intro s
  induction s with
  | nil => simp [goSplit, goCount]
  | cons c rest ih =>
    by_cases h : c = sep
    · simp [goSplit, goCount, h, List.count_cons] at ih ⊢
      omega
    · cases hs : goSplit sep rest with
      | nil => rw [hs] at ih; simp at ih
      | cons f fs =>
        rw [hs] at ih
        have hne : (c == sep) = false := by
          simp [h]
        simp [goSplit, goCount, h, hs, List.count_cons, hne] at ih ⊢
        omega

theorem list_eq_five {α : Type} :
    ∀ l : List α, l.length = 5 → ∃ a b c d e, l = [a, b, c, d, e] := by
  intro l h
  rcases l with _ | ⟨a, l⟩
  · simp at h
  rcases l with _ | ⟨b, l⟩
  · simp at h
  rcases l with _ | ⟨c, l⟩
  · simp at h
  rcases l with _ | ⟨d, l⟩
  · simp at h
  rcases l with _ | ⟨e, l⟩
  · simp at h
  have hl : l = [] := by
    simp only [List.length_cons] at h
    exact List.length_eq_zero.mp (by omega)
  exact ⟨a, b, c, d, e, by rw [hl]⟩

/-- Counterexample for C10: RemovePlaylistTracks called with an empty ID
list returns success even on a URI containing no colon at all, because the
len(ids) == 0 early return precedes the URI parse — the claim says every
call fails on a URI whose colon count differs from four. -/
theorem removePlaylistTracks_empty_counterexample :
    RemovePlaylistTracks (fun _ _ => none) 1 ("nocolonshere".toList) [] = Except.ok () := by
  rfl

/-- C10 (amended): parsePlaylistURI errors exactly when the number of colons
in the URI differs from four; with exactly four colons the split has exactly
five fields and the third and the fifth are returned with no error; hence
Playlist and PlaylistTracks fail on every URI whose colon count differs from
four, regardless of field contents and before any network call, and so does
RemovePlaylistTracks whenever the ID list is nonempty — while with an empty
ID list it returns success without examining the URI. -/
theorem parsePlaylistURI_spec :
    (∀ u : List Char,
        (∃ e, parsePlaylistURI u = Except.error e) ↔ goCount ':' u ≠ 4) ∧
    (∀ u : List Char, goCount ':' u = 4 →
        ∃ f0 f1 f2 f3 f4, goSplit ':' u = [f0, f1, f2, f3, f4] ∧
          parsePlaylistURI u = Except.ok (f2, f4)) ∧
    (∀ (cl : PlaylistClient) (fuel : Nat) (u : List Char), goCount ':' u ≠ 4 →
        ∃ e, PlaylistTracks cl fuel u = Except.error e) ∧
    (∀ (g : List Char → Except (List Char) (List Char)) (u : List Char),
        goCount ':' u ≠ 4 → ∃ e, Playlist g u = Except.error e) ∧
    (∀ (rc : List Char → List (List Char) → Option (List Char)) (fuel : Nat)
        (u : List Char) (ids : List (List Char)), ids ≠ [] → goCount ':' u ≠ 4 →
        ∃ e, RemovePlaylistTracks rc fuel u ids = Except.error e) ∧
    (∀ (rc : List Char → List (List Char) → Option (List Char)) (fuel : Nat)
        (u : List Char), RemovePlaylistTracks rc fuel u [] = Except.ok ()) := by
  have herr : ∀ u : List Char, goCount ':' u ≠ 4 →
      parsePlaylistURI u = Except.error ("Malformed playlist URI: expected 5 columns.".toList) := by
    intro u h
    simp [parsePlaylistURI, h]
  refine ⟨?_, ?_, ?_, ?_, ?_, ?_⟩
  · intro u
    by_cases h4 : goCount ':' u = 4 <;> simp [parsePlaylistURI, h4]
  · intro u h4
    have h5 : (goSplit ':' u).length = 5 := by
      rw [goSplit_length ':' u, h4]
    rcases list_eq_five (goSplit ':' u) h5 with ⟨f0, f1, f2, f3, f4, hsplit⟩
    refine ⟨f0, f1, f2, f3, f4, hsplit, ?_⟩
    simp [parsePlaylistURI, h4, hsplit]
  · intro cl fuel u h4
    exact ⟨"Malformed playlist URI: expected 5 columns.".toList,
      by simp [PlaylistTracks, herr u h4]⟩
  · intro g u h4
    exact ⟨"Malformed playlist URI: expected 5 columns.".toList,
      by simp [Playlist, herr u h4]⟩
  · intro rc fuel u ids hne h4
    have hlen : ids.length ≠ 0 := (List.length_pos.mpr hne).ne'
    exact ⟨"Malformed playlist URI: expected 5 columns.".toList,
      by simp [RemovePlaylistTracks, hlen, herr u h4]⟩
  · intro rc fuel u
    rfl

/-- Witness for C10 (amended): a URI with a single colon makes
PlaylistTracks fail before any network call, while a four-colon URI parses
into its third and fifth fields. -/
theorem parsePlaylistURI_spec_witness :
    (∃ e, PlaylistTracks ⟨fun _ => Except.ok []⟩ 5 ("spotify:playlist".toList)
        = Except.error e) ∧
    ∃ f0 f1 f2 f3 f4,
      goSplit ':' ("spotify:user:alice:playlist:pl77".toList) = [f0, f1, f2, f3, f4] ∧
        parsePlaylistURI ("spotify:user:alice:playlist:pl77".toList)
          = Except.ok (f2, f4) :=
  ⟨parsePlaylistURI_spec.2.2.1 ⟨fun _ => Except.ok []⟩ 5 ("spotify:playlist".toList)
      (by decide),
   parsePlaylistURI_spec.2.1 ("spotify:user:alice:playlist:pl77".toList) (by decide)⟩

end Spotitube
